import Mathlib

/-!
# Verification of the rrk.ir registry scraper

Shallow embedding, in Lean 4, of the parts of the `web_scrapers`
repository (TypeScript) that the frozen claims talk about:

* the session guard `withSessionRetry` / `isSessionExpired` /
  `renewSession` (src/scraper.ts, src/unnamed/part_003);
* the search orchestrator `executeSearch` with its pagination loop and
  checkpoint handling (src/scraper.ts);
* the pagination-status persistence `updatePaginationStatus` /
  `getPaginationStatus` and the company-batch processor
  `processCompanyData` (src/unnamed/part_003);
* the retrying fetcher `fetchAndSaveHtml` (src/unnamed/part_002 and
  part_003);
* the CSV batch writer `writeExtractedInfoBatchToCsv`
  (src/unnamed/part_003);
* the combination generator `generateCombinationsIterative` and the
  worker distribution in `main` (src/scraper.ts);
* the credential store `saveCredentials` / `loadCredentials` /
  `readJsonFile` / `writeJsonFile` (src/fileUtils.ts).

Modelling conventions:

* JavaScript exceptions are modelled with `Except`; a `try`/`catch`
  block becomes a `match` on the `Except` value of the embedded body.
* The filesystem is modelled per file: a file's parsed content is an
  `Option` value (`none` = missing/unreadable), and the JSON
  persist/load round-trip through `JSON.stringify`/`JSON.parse` is
  value-preserving, so files store the parsed value directly.
* Network calls are modelled by environment functions ("scripts") that
  give the outcome of the n-th low-level call; the embedded code is
  deterministic given such an environment.
* JavaScript objects used as string-keyed maps are association lists
  with first-occurrence lookup; object spread `{...old, ...new}` is
  key-wise override.
* Timestamps (`new Date().toISOString()`) carry no information used by
  any claim and are omitted from the embedded records.
-/

namespace WebScrapers

/-- Association-list lookup with first-occurrence semantics, modelling
property access on a JavaScript object viewed as a string-keyed map. -/
def lookupKey {α : Type} : List (String × α) → String → Option α
  | [], _ => none
  | (k, v) :: t, key => if k = key then some v else lookupKey t key

/-- JSON-like values: the shape of parsed response bodies
(`response.data`) and of JSON files on disk. -/
inductive JValue : Type where
  | null : JValue
  | bool (b : Bool) : JValue
  | num (n : Int) : JValue
  | str (s : String) : JValue
  | arr (elems : List JValue) : JValue
  | obj (fields : List (String × JValue)) : JValue

/-- `isSessionExpired` (src/scraper.ts:519, src/unnamed/part_003:1267):
a response indicates an expired session exactly when it is a non-null
object whose `error` field equals `"Your session has ended."`.
(`JValue.obj` is the only constructor for which the JavaScript test
`typeof response === 'object' && response !== null` can reach the
`.error` comparison with a defined string-valued field.) -/
def isSessionExpired : JValue → Bool
  | .obj fields =>
    match lookupKey fields "error" with
    | some (.str s) => s = "Your session has ended."
    | _ => false
  | _ => false

/-- The slice of an axios error that `withSessionRetry` inspects:
whether `axios.isAxiosError(error)` holds and the attached
`error.response?.data` body, if any.  The payload type is a parameter
because the generic `withSessionRetry<T>` checks the body with
`isSessionExpired` regardless of `T`. -/
structure AxiosErr (T : Type) : Type where
  isAxiosError : Bool
  responseData : Option T
deriving DecidableEq

/-- The `catch`-branch test of `withSessionRetry`:
`axios.isAxiosError(error) && error.response?.data &&
await isSessionExpired(error.response.data)`. -/
def axiosSessionExpired {T : Type} (expired : T → Bool) (e : AxiosErr T) : Bool :=
  e.isAxiosError && (match e.responseData with
    | some d => expired d
    | none => false)

/-- A stored credential entry: `{cookies, formData}` for one page URL
(`Credentials` in src/utils/types.ts).  `cookies = none` models an
absent property. -/
structure CredEntry : Type where
  cookies : Option String
  formData : List (String × String)
deriving DecidableEq

/-- The credentials map persisted in `credentials.json`:
page URL → credential entry. -/
abbrev Credentials : Type := List (String × CredEntry)

/-- The state threaded through the session guard: the parsed content of
`credentials.json` (`none` = file missing/unreadable) plus an arbitrary
inner component `σ` for everything else the wrapped operation and the
cookie acquisition may touch (network, counters, other files). -/
structure GuardState (σ : Type) : Type where
  credFile : Option Credentials
  inner : σ

/-- `renewSession` (src/scraper.ts:528, src/unnamed/part_003:1290):
clear the credentials file to the empty map (`writeJsonFile(..., {})`),
then re-acquire initial cookies.  `getInitialCookies` performs network
requests and is passed in as the abstract state transformer
`acquire`. -/
def renewSession {σ : Type} (acquire : GuardState σ → GuardState σ)
    (s : GuardState σ) : GuardState σ :=
  acquire { s with credFile := some [] }

/-- `withSessionRetry` (src/scraper.ts:557, src/unnamed/part_003:1311),
generic in the operation's result type `T` with expiry test `expired`
(the source hardcodes `isSessionExpired`; instantiations below restore
it).  The `try` block runs the operation and, when the *result* has the
session-ended shape, renews and re-runs; any exception raised inside
the `try` block — including one raised by that re-run — reaches the
`catch` block, which renews and re-runs once when the error carries a
session-ended response body and otherwise rethrows. -/
def withSessionRetry {σ T : Type} (expired : T → Bool)
    (acquire : GuardState σ → GuardState σ)
    (op : GuardState σ → Except (AxiosErr T) T × GuardState σ)
    (s : GuardState σ) : Except (AxiosErr T) T × GuardState σ :=
  let tryBlock : Except (AxiosErr T) T × GuardState σ :=
    match op s with
    | (.error e, s1) => (.error e, s1)
    | (.ok v, s1) =>
      if expired v then
        op (renewSession acquire s1)
      else
        (.ok v, s1)
  match tryBlock with
  | (.ok v, s') => (.ok v, s')
  | (.error e, s') =>
    if axiosSessionExpired expired e then
      op (renewSession acquire s')
    else
      (.error e, s')

/-- `withSessionRetry` as written in the source, with the expiry test
fixed to `isSessionExpired` on JSON response bodies. -/
def withSessionRetryJson {σ : Type}
    (acquire : GuardState σ → GuardState σ)
    (op : GuardState σ → Except (AxiosErr JValue) JValue × GuardState σ)
    (s : GuardState σ) : Except (AxiosErr JValue) JValue × GuardState σ :=
  withSessionRetry isSessionExpired acquire op s

/-- A response body with the session-ended shape. -/
def sessionEndedBody : JValue :=
  .obj [("error", .str "Your session has ended.")]

/-- Scripted operation outcomes for the session-guard counterexample:
run 1 returns a session-ended body, run 2 throws an axios error whose
response body is again session-ended, run 3 succeeds. -/
def c1Script : Nat → Except (AxiosErr JValue) JValue
  | 0 => .ok sessionEndedBody
  | 1 => .error { isAxiosError := true, responseData := some sessionEndedBody }
  | _ => .ok (.str "done")

/-- An operation whose inner state counts how many times it has been
invoked and whose outcome follows `c1Script`. -/
def c1Op (s : GuardState Nat) :
    Except (AxiosErr JValue) JValue × GuardState Nat :=
  (c1Script s.inner, { s with inner := s.inner + 1 })

/-- Initial state for the session-guard runs: no credentials file, zero
operation calls so far. -/
def c1Start : GuardState Nat := { credFile := none, inner := 0 }

/-- An always-succeeding operation (counting its invocations), used to
witness the plain-result path of the session guard. -/
def c1CleanOp (s : GuardState Nat) :
    Except (AxiosErr JValue) JValue × GuardState Nat :=
  (.ok (.str "fine"), { s with inner := s.inner + 1 })

/-- A node-style I/O error: only the `code` property is ever inspected
(`readJsonFile` looks for `'ENOENT'`, and then only to decide whether
to log). -/
structure IOErr : Type where
  code : Option String

/-- Outcomes of the primitive filesystem and JSON operations that
`readJsonFile` / `writeJsonFile` (src/fileUtils.ts:26,45) invoke.
`dirOk p` is the combined outcome of `ensureDirectoryExists` on `p`'s
directory (`fs.access`, falling back to `fs.mkdir`); `readResult p` is
`fs.readFile(p, 'utf-8')`; `parse` is `JSON.parse` (`.error` = throw);
`writeResult p v` is `fs.writeFile(p, JSON.stringify(v, null, 2))` —
serialization itself cannot fail on `JValue` data (no circular
references), so the value is passed through. -/
structure FsEnv : Type where
  dirOk : String → Except IOErr Unit
  readResult : String → Except IOErr String
  parse : String → Except IOErr JValue
  writeResult : String → JValue → Except IOErr Unit

/-- The `try`-block body of `readJsonFile`: ensure the directory,
read the file, parse its content.  Every step may throw. -/
def readJsonFileBody (env : FsEnv) (p : String) : Except IOErr JValue :=
  match env.dirOk p with
  | .error e => .error e
  | .ok _ =>
    match env.readResult p with
    | .error e => .error e
    | .ok s => env.parse s

/-- `readJsonFile` (src/fileUtils.ts:26): the body wrapped in the
`catch` that turns every failure into `null` (`none`). -/
def readJsonFile (env : FsEnv) (p : String) : Option JValue :=
  match readJsonFileBody env p with
  | .ok v => some v
  | .error _ => none

/-- The `try`-block body of `writeJsonFile`: ensure the directory,
serialize and write, return `true`. -/
def writeJsonFileBody (env : FsEnv) (p : String) (data : JValue) :
    Except IOErr Bool :=
  match env.dirOk p with
  | .error e => .error e
  | .ok _ =>
    match env.writeResult p data with
    | .error e => .error e
    | .ok _ => .ok true

/-- `writeJsonFile` (src/fileUtils.ts:45): the body wrapped in the
`catch` that turns every failure into `false`. -/
def writeJsonFile (env : FsEnv) (p : String) (data : JValue) : Bool :=
  match writeJsonFileBody env p data with
  | .ok b => b
  | .error _ => false

/-- JavaScript object spread `{...old, ...new}` on string-keyed maps:
keys of `old` keep their position, values overridden by `new` where
present; keys only in `new` are appended. -/
def objMerge (old new : List (String × String)) : List (String × String) :=
  old.map (fun p =>
    match lookupKey new p.1 with
    | some v => (p.1, v)
    | none => p)
  ++ new.filter (fun p => (lookupKey old p.1).isNone)

/-- `{...existingData, [url]: entry}`: replace the entry at `url` if
present, else append it. -/
def setKey (m : Credentials) (url : String) (v : CredEntry) : Credentials :=
  if (lookupKey m url).isSome then
    m.map (fun p => if p.1 = url then (url, v) else p)
  else
    m ++ [(url, v)]

/-- The `newData` argument of `saveCredentials` as produced by its
callers (`makeRequestAndSaveCredentials`): optional `cookies` plus a
`formData` object.  `cookies = none` models an absent property. -/
structure NewCredData : Type where
  cookies : Option String
  formData : List (String × String)

/-- The per-URL merge of `saveCredentials` (src/fileUtils.ts:93):
`{...existingData[url], ...newData, formData: {...existingData[url]?.formData,
...newData.formData}}`. -/
def mergeEntry (old : Option CredEntry) (nd : NewCredData) : CredEntry :=
  { cookies :=
      match nd.cookies with
      | some c => some c
      | none =>
        match old with
        | some e => e.cookies
        | none => none
    formData :=
      objMerge
        (match old with
          | some e => e.formData
          | none => [])
        nd.formData }

/-- `saveCredentials` (src/fileUtils.ts:80) on the parsed content of
`credentials.json` (`file = none` models a missing/unreadable file,
which `readJsonFile` turns into the `{}` default).  `writeOk` is the
outcome of the final `writeJsonFile`; on failure the file is left as it
was and `false` is returned. -/
def saveCredentials (file : Option Credentials) (writeOk : Bool)
    (url : String) (nd : NewCredData) : Bool × Option Credentials :=
  let existingData : Credentials := file.getD []
  let updated :=
    setKey existingData url (mergeEntry (lookupKey existingData url) nd)
  if writeOk then (true, some updated) else (false, file)

/-- `loadCredentials` (src/fileUtils.ts:115): `readJsonFile` of the
credentials file — in the value model, the parsed content itself. -/
def loadCredentials (file : Option Credentials) : Option Credentials := file

/-- `MAX_RETRIES` (src/unnamed/part_002:724): fixed attempt cap. -/
def MAX_RETRIES : Nat := 3

/-- `RETRY_DELAY` (src/unnamed/part_002:725): base wait in
milliseconds. -/
def RETRY_DELAY : Nat := 2000

/-- The slice of an error that `fetchAndSaveHtml`'s retry test
inspects: `axios.isAxiosError(error)`, `error.code`, and
`error.response?.status`. -/
structure FetchErr : Type where
  isAxios : Bool
  code : Option String
  status : Option Nat

/-- The retry test of `fetchAndSaveHtml` (src/unnamed/part_002:810):
axios error with code ECONNABORTED/ETIMEDOUT/ECONNRESET or an HTTP
status ≥ 500 (absent response/status is falsy). -/
def isRetryableErr (e : FetchErr) : Bool :=
  e.isAxios &&
    (e.code == some "ECONNABORTED" || e.code == some "ETIMEDOUT"
      || e.code == some "ECONNRESET"
      || (match e.status with
          | some st => decide (500 ≤ st)
          | none => false))

/-- How a `fetchAndSaveHtml` run can end: success; the wrapping
`Error` thrown when the last attempt fails (carrying its cause); a
non-retryable error rethrown as-is; or the `throw lastError` after the
loop (unreachable: the loop always returns or throws). -/
inductive FetchResult : Type where
  | ok (html : String)
  | failedAfterMax (cause : FetchErr)
  | immediate (e : FetchErr)
  | postLoop

/-- The attempt loop of `fetchAndSaveHtml` (src/unnamed/part_002:743,
part_003:526).  `script attempt` is the outcome of the attempt's
credential load + HTTP GET; `rem` is the remaining loop fuel
(`MAX_RETRIES - attempt + 1` at every reachable call).  Returns the
run's result together with the list of waits (in ms) inserted before
retries, in order: the wait before retrying attempt `n` is
`RETRY_DELAY * n`. -/
def fetchAttempts (script : Nat → Except FetchErr String) :
    Nat → Nat → FetchResult × List Nat
  | _, 0 => (.postLoop, [])
  | attempt, rem + 1 =>
    match script attempt with
    | .ok h => (.ok h, [])
    | .error e =>
      if attempt == MAX_RETRIES then (.failedAfterMax e, [])
      else if isRetryableErr e then
        let rest := fetchAttempts script (attempt + 1) rem
        (rest.1, RETRY_DELAY * attempt :: rest.2)
      else (.immediate e, [])

/-- `fetchAndSaveHtml` (src/unnamed/part_002:735): the attempt loop
started at attempt 1 with fuel `MAX_RETRIES`. -/
def fetchAndSaveHtml (script : Nat → Except FetchErr String) :
    FetchResult × List Nat :=
  fetchAttempts script 1 MAX_RETRIES

/-- Scripted outcomes for the retry-loop witness: every attempt times
out with a retryable axios error. -/
def c3TimeoutErr : FetchErr :=
  { isAxios := true, code := some "ETIMEDOUT", status := none }

/-- A script in which every attempt fails with `c3TimeoutErr`. -/
def c3Script : Nat → Except FetchErr String := fun _ => .error c3TimeoutErr

/-- The fixed 33-letter Persian alphabet of
`generateCombinationsIterative` (src/unnamed/part_003:849). -/
def persianLetters : List String :=
  ["آ", "ا", "ب", "پ", "ت", "ث", "ج", "چ", "ح", "خ", "د",
   "ذ", "ر", "ز", "ژ", "س", "ش", "ص", "ض", "ط", "ظ", "ع",
   "غ", "ف", "ق", "ک", "گ", "ل", "م", "ن", "و", "ه", "ی"]

/-- One pass of the generator's inner loops: for each existing
combination, push `combination + letter` for every letter. -/
def extendComb (combinations : List String) : List String :=
  combinations.flatMap (fun c => persianLetters.map (fun l => c ++ l))

/-- `generateCombinationsIterative` (src/unnamed/part_003:848): empty
for `maxLength ≤ 0` (the JavaScript `number` argument may be
non-positive, hence `Int`); otherwise start from the single letters and
run the extension pass for `currentLength = 2 .. maxLength`,
i.e. `maxLength - 1` times. -/
def generateCombinationsIterative (maxLength : Int) : List String :=
  if maxLength ≤ 0 then []
  else extendComb^[(maxLength - 1).toNat] persianLetters

/-- The generator's state after `n` extension passes. -/
def genAux (n : Nat) : List String := extendComb^[n] persianLetters

/-- Specification-side helper: the concatenation of a list of strings,
used to say "`s` is a word spelled from given letters". -/
def concatAll : List String → String
  | [] => ""
  | s :: t => s ++ concatAll t

/-- `combinationsPerWorker = Math.ceil(totalCombinations / workers)`
(src/scraper.ts:843): for `workers ≥ 1` the ceiling division is
`(total + workers - 1) / workers` in natural division. -/
def combinationsPerWorker (total workers : Nat) : Nat :=
  (total + workers - 1) / workers

/-- The slice assigned to worker `i` in `main` (src/scraper.ts:846):
`allCombinations.slice(startIndex, endIndex)` with
`startIndex = i * combinationsPerWorker` and
`endIndex = min((i + 1) * combinationsPerWorker, totalCombinations)`;
JavaScript `Array.slice(start, end)` takes `end - start` elements
starting at `start` (empty when `end ≤ start`). -/
def workerSlice (l : List String) (workers i : Nat) : List String :=
  let c := combinationsPerWorker l.length workers
  let startIndex := i * c
  let endIndex := min ((i + 1) * c) l.length
  (l.drop startIndex).take (endIndex - startIndex)

/-- One parsed row of the company-listing table in `processCompanyData`
(src/unnamed/part_003:992): whether the selector
`td:first-child a.COMPANY` matches (`hasLink`), and the cell texts the
code reads when it does. -/
structure RowData : Type where
  hasLink : Bool
  companyId : String
  companyName : String
  nationalId : String
  registrationNumber : String
deriving DecidableEq

/-- The slice of a `flowAjaxCompanyInfo` result that
`processCompanyData` uses (`CompanyDetails` in src/utils/types.ts). -/
structure CompanyDetails : Type where
  postalCode : String
  address : String
deriving DecidableEq

/-- `CompanyData` (src/utils/types.ts:147): basic info plus the
optional postal code / address filled from `flowAjaxCompanyInfo`. -/
structure CompanyData : Type where
  companyId : String
  companyName : String
  nationalId : String
  registrationNumber : String
  postalCode : Option String
  address : Option String
deriving DecidableEq

/-- `ProcessCompanyResult` (src/utils/types.ts:156). -/
structure ProcessCompanyResult : Type where
  processedCount : Nat
  totalProcessed : Int
deriving DecidableEq

/-- `CompanyPaginationStatus` (src/utils/types.ts:121), minus the
`lastUpdated` timestamp. -/
structure CompanyPaginationStatus : Type where
  currentMinRow : Nat
  perPage : Nat
  totalProcessed : Int
  isFirstBatch : Bool
deriving DecidableEq

/-- `CombinationStatus` (src/utils/types.ts:129), keeping the fields
the embedded code reads or writes (timestamps omitted). -/
structure CombinationStatus : Type where
  combination : String
  statusTag : String
  paginationStatus : Option CompanyPaginationStatus
deriving DecidableEq

/-- The slice of a portal response body that `executeSearch`'s steps
inspect: the session-expiry `error` field, `flowAccept`'s optional
`redirectURL`, and the company rows that `processCompanyData` parses
out of the body.  (`Resp` plays the role `JValue` plays for the
generic session guard: an object shape with projections.) -/
structure Resp : Type where
  errorField : Option String := none
  redirectURL : Option String := none
  rows : List RowData := []
deriving DecidableEq

/-- `isSessionExpired` on the `Resp` shape: the `error` field equals
the session-ended message. -/
def respExpired (r : Resp) : Bool :=
  r.errorField == some "Your session has ended."

/-- Observable actions of an `executeSearch` run, in order: the portal
calls (accept / redirect follow / ajax refine / company-listing page at
a `minRow`), cookie acquisition, per-company info calls, and inserted
delays. -/
inductive Event : Type where
  | callAccept
  | callRedirect
  | callAjax2
  | callCompany (minRow : Nat)
  | acquireCookies
  | infoCall (companyId : String)
  | delayMs (ms : Nat)
deriving DecidableEq

/-- The per-query files and instrumentation threaded through an
`executeSearch` run (for one fixed search query): the parsed
`status.json`, the lines of `company_data.csv`, the
`search_results.json` content, the event trace, and the index of the
next scripted low-level call. -/
structure WInner : Type where
  statusFile : Option CombinationStatus := none
  companyCsv : Option (List String) := none
  searchResultsFile : Option Int := none
  trace : List Event := []
  callIdx : Nat := 0
deriving DecidableEq

/-- Full state of an `executeSearch` run: the credentials file (used by
the session guard) plus the per-query state. -/
abbrev SState : Type := GuardState WInner

/-- The environment of a run: `script n` is the outcome of the n-th
low-level portal call, `details id` the parsed result of
`flowAjaxCompanyInfo` for a company id (`none` = failed or empty,
which the code swallows). -/
structure SearchEnv : Type where
  script : Nat → Except (AxiosErr Resp) Resp
  details : String → Option CompanyDetails

/-- Record an event and consume the next scripted call. -/
def emitCall (ev : Event) (s : SState) : SState :=
  { s with inner := { s.inner with
      trace := s.inner.trace ++ [ev],
      callIdx := s.inner.callIdx + 1 } }

/-- `flowAccept` (src/scraper.ts:133) as a scripted operation. -/
def flowAcceptM (env : SearchEnv) (s : SState) :
    Except (AxiosErr Resp) Resp × SState :=
  (env.script s.inner.callIdx, emitCall .callAccept s)

/-- The redirect-following `makeRequestAndSaveCredentials` call
(src/scraper.ts:640) as a scripted operation. -/
def redirectM (env : SearchEnv) (s : SState) :
    Except (AxiosErr Resp) Resp × SState :=
  (env.script s.inner.callIdx, emitCall .callRedirect s)

/-- `flowAjax2` (src/scraper.ts:283) as a scripted operation. -/
def flowAjax2M (env : SearchEnv) (s : SState) :
    Except (AxiosErr Resp) Resp × SState :=
  (env.script s.inner.callIdx, emitCall .callAjax2 s)

/-- `flowAjaxCompany` (src/scraper.ts:319) as a scripted operation;
the event records the requested `minRow`. -/
def flowAjaxCompanyM (env : SearchEnv) (minRow : Nat) (s : SState) :
    Except (AxiosErr Resp) Resp × SState :=
  (env.script s.inner.callIdx, emitCall (.callCompany minRow) s)

/-- `getInitialCookies` (src/scraper.ts:96) for this model: its
network requests and credential saves are outside every claim, so it
only records that cookies were re-acquired. -/
def acquireCookiesM (s : SState) : SState :=
  { s with inner := { s.inner with
      trace := s.inner.trace ++ [Event.acquireCookies] } }

/-- `CompanyId,...` header row of `company_data.csv`
(src/unnamed/part_003:1064). -/
def companyHeaders : List String :=
  ["CompanyId", "CompanyName", "NationalId", "RegistrationNumber",
   "PostalCode", "Address"]

/-- `Array.join(",")` on a list of cells. -/
def joinComma : List String → String
  | [] => ""
  | [c] => c
  | c :: rest => c ++ "," ++ joinComma rest

/-- The header line of `company_data.csv`. -/
def companyHeader : String := joinComma companyHeaders

/-- CSV quoting: wrap in double quotes, doubling inner quotes
(`"${v.replace(/"/g, '""')}"`). -/
def csvQuote (v : String) : String :=
  "\"" ++ v.replace "\"" "\"\"" ++ "\""

/-- The company extracted from one linked row, with postal code and
address from `flowAjaxCompanyInfo` when that call yields details. -/
def companyOfRow (env : SearchEnv) (r : RowData) : CompanyData :=
  { companyId := r.companyId
    companyName := r.companyName
    nationalId := r.nationalId
    registrationNumber := r.registrationNumber
    postalCode := (env.details r.companyId).map (fun d => d.postalCode)
    address := (env.details r.companyId).map (fun d => d.address) }

/-- One data line of `company_data.csv` (src/unnamed/part_003:1081):
id and plain cells unquoted, name/postal/address quoted. -/
def companyRowLine (c : CompanyData) : String :=
  joinComma [c.companyId, csvQuote c.companyName, c.nationalId,
    c.registrationNumber, csvQuote (c.postalCode.getD ""),
    csvQuote (c.address.getD "")]

/-- `updatePaginationStatus` (src/unnamed/part_003:910): read the
query's `status.json` (fresh "pending" record when missing/unreadable),
set its `paginationStatus`, write it back. -/
def updatePaginationStatus (searchQuery : String)
    (pag : CompanyPaginationStatus) (s : SState) : SState :=
  let status0 : CombinationStatus :=
    match s.inner.statusFile with
    | some st => st
    | none =>
      { combination := searchQuery, statusTag := "pending",
        paginationStatus := none }
  { s with inner := { s.inner with
      statusFile := some { status0 with paginationStatus := some pag } } }

/-- `getPaginationStatus` (src/unnamed/part_003:957): the
`paginationStatus` of the query's `status.json`, `null` when the file
is missing/unreadable or the field absent. -/
def getPaginationStatus (s : SState) : Option CompanyPaginationStatus :=
  s.inner.statusFile.bind (fun st => st.paginationStatus)

/-- `processCompanyData` (src/unnamed/part_003:975) for one fixed
query: extract the linked rows (one `flowAjaxCompanyInfo` call each),
return `{0, 0}` untouched when none matched; otherwise append to
`company_data.csv` — header exactly when `isFirstBatch` — recompute the
running total from the file when not the first batch
(`lines - 2` of the newline-split content), and persist the pagination
status. -/
def processCompanyData (env : SearchEnv) (rows : List RowData)
    (searchQuery : String) (isFirstBatch : Bool)
    (currentMinRow perPage : Nat) (s : SState) :
    ProcessCompanyResult × SState :=
  let linked := rows.filter (fun r => r.hasLink)
  let infoEvents := linked.map (fun r => Event.infoCall r.companyId)
  let s1 : SState :=
    { s with inner := { s.inner with trace := s.inner.trace ++ infoEvents } }
  if linked.isEmpty then
    ({ processedCount := 0, totalProcessed := 0 }, s1)
  else
    let companies := linked.map (companyOfRow env)
    let currentTotal : Int :=
      if isFirstBatch then 0
      else
        match s1.inner.companyCsv with
        | some lines => (lines.length : Int) - 1
        | none => 0
    let headerLines : List String :=
      if isFirstBatch then [companyHeader] else []
    let newCsv := (s1.inner.companyCsv.getD []) ++ headerLines
      ++ companies.map companyRowLine
    let totalProcessed : Int := currentTotal + companies.length
    let s2 : SState :=
      { s1 with inner := { s1.inner with companyCsv := some newCsv } }
    let s3 := updatePaginationStatus searchQuery
      { currentMinRow := currentMinRow, perPage := perPage,
        totalProcessed := totalProcessed, isFirstBatch := isFirstBatch } s2
    ({ processedCount := companies.length,
       totalProcessed := totalProcessed }, s3)

/-- `perPage = 1000` in `executeSearch` (src/scraper.ts:676). -/
def searchPerPage : Nat := 1000

/-- How an `executeSearch` run ends in the model: loop fuel exhausted
(the source loop is unbounded), an error propagated out, or normal
completion with the final company total. -/
inductive RunResult : Type where
  | fuelOut
  | err (e : AxiosErr Resp)
  | done (totalCompanies : Int)
deriving DecidableEq

/-- The `while (true)` pagination loop of `executeSearch`
(src/scraper.ts:682): fetch a page through the session guard, process
it, stop when the page was short, otherwise advance `minRow` by
`perPage`, clear `isFirstBatch`, delay 1000 ms and continue. -/
def companyLoop (env : SearchEnv) (searchQuery : String) :
    Nat → Nat → Int → Bool → SState → RunResult × SState
  | 0, _, _, _, s => (.fuelOut, s)
  | fuel + 1, minRow, _totalCompanies, isFirstBatch, s =>
    match withSessionRetry respExpired acquireCookiesM
        (flowAjaxCompanyM env minRow) s with
    | (.error e, s1) => (.err e, s1)
    | (.ok resp, s1) =>
      let pr := processCompanyData env resp.rows searchQuery isFirstBatch
        minRow searchPerPage s1
      if pr.1.processedCount < searchPerPage then
        (.done pr.1.totalProcessed, pr.2)
      else
        let s3 : SState := { pr.2 with inner := { pr.2.inner with
          trace := pr.2.inner.trace ++ [Event.delayMs 1000] } }
        companyLoop env searchQuery fuel (minRow + searchPerPage)
          pr.1.totalProcessed false s3

/-- The tail of `executeSearch` after the loop: write the minimal
`search_results.json` on normal completion. -/
def executeSearchLoopPhase (env : SearchEnv) (fuel : Nat)
    (searchQuery : String) (init : Nat × Int × Bool) (s : SState) :
    RunResult × SState :=
  match companyLoop env searchQuery fuel init.1 init.2.1 init.2.2 s with
  | (.done total, s4) =>
    (.done total, { s4 with inner := { s4.inner with
        searchResultsFile := some total } })
  | (.fuelOut, s4) => (.fuelOut, s4)
  | (.err e, s4) => (.err e, s4)

/-- `executeSearch` (src/scraper.ts:610): accept search, follow the
redirect when one is returned, ajax refine, initialize the pagination
loop from the persisted checkpoint when present (row 1 / 0 / first
batch otherwise), run the loop, save the result file.  Every step is
wrapped in `withSessionRetry`; an error from any step propagates
(`executeSearch`'s own catch only logs and rethrows). -/
def executeSearch (env : SearchEnv) (fuel : Nat) (searchQuery : String)
    (s : SState) : RunResult × SState :=
  match withSessionRetry respExpired acquireCookiesM (flowAcceptM env) s with
  | (.error e, s1) => (.err e, s1)
  | (.ok result, s1) =>
    let redirectStep : Except (AxiosErr Resp) Unit × SState :=
      match result.redirectURL with
      | some _ =>
        match withSessionRetry respExpired acquireCookiesM (redirectM env) s1 with
        | (.error e, s2) => (.error e, s2)
        | (.ok _, s2) => (.ok (), s2)
      | none => (.ok (), s1)
    match redirectStep with
    | (.error e, s2) => (.err e, s2)
    | (.ok _, s2) =>
      match withSessionRetry respExpired acquireCookiesM (flowAjax2M env) s2 with
      | (.error e, s3) => (.err e, s3)
      | (.ok _, s3) =>
        let init : Nat × Int × Bool :=
          match getPaginationStatus s3 with
          | some p => (p.currentMinRow, p.totalProcessed, p.isFirstBatch)
          | none => (1, 0, true)
        executeSearchLoopPhase env fuel searchQuery init s3

/-- An environment whose scripted calls all succeed with plain bodies
(no session-expiry shape, no redirect) and whose `n`-th call carries
the rows `batches n`. -/
def cleanEnv (batches : Nat → List RowData)
    (details : String → Option CompanyDetails) : SearchEnv :=
  { script := fun n => .ok { rows := batches n }, details := details }

/-- Portal calls only (accept / redirect / refine / company pages). -/
def isPortalCall : Event → Bool
  | .callAccept => true
  | .callRedirect => true
  | .callAjax2 => true
  | .callCompany _ => true
  | _ => false

/-- The portal-call subtrace of an event trace. -/
def portalCalls (tr : List Event) : List Event := tr.filter isPortalCall

/-- A fresh run state: no files, empty trace. -/
def sInit : SState := { credFile := none, inner := {} }

/-- A network-level axios error with no response body attached
(e.g. ECONNRESET), as `withSessionRetry` sees it. -/
def c4NetErr : AxiosErr Resp := { isAxiosError := true, responseData := none }

/-- An environment whose first call throws `c4NetErr`. -/
def c4ErrEnv : SearchEnv :=
  { script := fun _ => .error c4NetErr, details := fun _ => none }

/-- A linked company row used by the duplicate-header counterexample. -/
def c8Row : RowData :=
  { hasLink := true, companyId := "1", companyName := "n",
    nationalId := "x", registrationNumber := "y" }

/-- An environment for direct `processCompanyData` calls (scripted
calls unused, no extra details). -/
def c8Env : SearchEnv :=
  { script := fun _ => .ok {}, details := fun _ => none }

/-- The state after a first `processCompanyData` batch with
`isFirstBatch = true` on a fresh state. -/
def c8s1 : SState := (processCompanyData c8Env [c8Row] "q" true 1 1000 sInit).2

/-- The fixed column order of `writeExtractedInfoBatchToCsv`
(src/unnamed/part_003:630). -/
def extractedColumns : List String :=
  ["rowNumber", "url", "scrapedAt", "trackingNumber", "letterNumber",
   "letterDate", "newspaperNumber", "newspaperDate", "pageNumber",
   "publishCount", "title", "content", "companyName",
   "companyNationalId", "companyRegisterNumber", "letterPublisher"]

/-- The header line of `extracted_data.csv`. -/
def extractedHeader : String := joinComma extractedColumns

/-- `getCurrentRowCount` (src/unnamed/part_003:717):
`content.split("\n").length - 1`, i.e. the number of lines of the file
(every written line ends in a newline), `0` when the file is
missing. -/
def getCurrentRowCount (file : Option (List String)) : Nat :=
  match file with
  | none => 0
  | some lines => lines.length

/-- One data line of `extracted_data.csv`: the `rowNumber` column
carries the number itself, every other column the quoted field value
(`item[col] || ""`). -/
def renderExtractedRow (item : List (String × String)) (rowNumber : Nat) :
    String :=
  joinComma (extractedColumns.map (fun col =>
    if col = "rowNumber" then toString rowNumber
    else csvQuote ((lookupKey item col).getD "")))

/-- `writeExtractedInfoBatchToCsv` (src/unnamed/part_003:623) on the
lines of the target file: add the header only when `isFirstBatch` and
the file is empty or missing; number rows from 1 on a fresh file, else
from the current line count; append everything. -/
def writeExtractedInfoBatchToCsv (file : Option (List String))
    (data : List (List (String × String))) (isFirstBatch : Bool) :
    List String :=
  let shouldAddHeaders : Bool :=
    match file with
    | none => true
    | some lines => lines.isEmpty
  let headerLines : List String :=
    if isFirstBatch && shouldAddHeaders then [extractedHeader] else []
  let startRow : Nat := if shouldAddHeaders then 1 else getCurrentRowCount file
  let rows := data.enum.map (fun p => renderExtractedRow p.2 (startRow + p.1))
  (file.getD []) ++ headerLines ++ rows

/-- Header-once: the given header line occurs at most once and only as
the first line. -/
def headerOnce (header : String) (lines : List String) : Prop :=
  lines.count header ≤ 1 ∧ ∀ i, lines.get? i = some header → i = 0

/-- An unlinked table row (no `a.COMPANY` anchor). -/
def c9Row : RowData :=
  { hasLink := false, companyId := "", companyName := "",
    nationalId := "", registrationNumber := "" }

/-- A mid-scrape checkpoint value. -/
def c2Ckpt : CompanyPaginationStatus :=
  { currentMinRow := 2001, perPage := 1000,
    totalProcessed := 42, isFirstBatch := false }

/-- The `status.json` record holding the checkpoint `c2Ckpt`. -/
def c2CkptFile : CombinationStatus :=
  { combination := "q", statusTag := "pending",
    paginationStatus := some c2Ckpt }

/-- A state whose `status.json` holds the checkpoint `c2Ckpt`. -/
def c2CkptState : SState :=
  { credFile := none,
    inner := { statusFile := some c2CkptFile } }

/-- The final per-query state of the empty-batch run: one page call,
no status file, no CSV, result file written. -/
def c2FinalInner : WInner :=
  { statusFile := none, companyCsv := none, searchResultsFile := some 0,
    trace := [Event.callAccept, Event.callAjax2, Event.callCompany 1],
    callIdx := 3 }

/-- The final per-query state after `flowAccept` throws a network
error: a single call, nothing written. -/
def c4FinalInner : WInner :=
  { statusFile := none, companyCsv := none, searchResultsFile := none,
    trace := [Event.callAccept], callIdx := 1 }

/-! ## Theorems -/

/-- `lookupKey` distributes over list append, preferring the left
list. -/
theorem lookupKey_append {α : Type} (a b : List (String × α)) (k : String) :
    lookupKey (a ++ b) k = (lookupKey a k).or (lookupKey b k) := by
  induction a with
  | nil => simp [lookupKey]
  | cons h t ih =>
    by_cases hk : h.1 = k
    · simp [lookupKey, hk]
    · simp [lookupKey, hk, ih]

/-- `lookupKey` after a key-preserving value transformation. -/
theorem lookupKey_mapValues {α : Type} (m : List (String × α))
    (h : String → α → α) (k : String) :
    lookupKey (m.map (fun p => (p.1, h p.1 p.2))) k
      = (lookupKey m k).map (h k) := by
  induction m with
  | nil => simp [lookupKey]
  | cons hd t ih =>
    by_cases hk : hd.1 = k
    · subst hk
      simp [lookupKey]
    · simp [lookupKey, hk, ih]

/-- `lookupKey` on the filter that keeps only the keys absent from
`old`. -/
theorem lookupKey_filterAbsent {α : Type} (old new : List (String × α))
    (k : String) :
    lookupKey (new.filter (fun p => (lookupKey old p.1).isNone)) k
      = if (lookupKey old k).isNone then lookupKey new k else none := by
  induction new with
  | nil => simp [lookupKey]
  | cons hd t ih =>
    obtain ⟨k0, v0⟩ := hd
    rw [List.filter_cons]
    by_cases habs : ((lookupKey old k0).isNone : Bool) = true
    · rw [if_pos habs]
      by_cases hk : k0 = k
      · subst hk
        simp [lookupKey, habs]
      · simp [lookupKey, hk, ih]
    · rw [if_neg habs]
      by_cases hk : k0 = k
      · subst hk
        simp [lookupKey, ih, habs]
      · simp [lookupKey, hk, ih]

/-- Lookup in the object-spread merge: the new object wins, old values
survive where the new object lacks the key. -/
theorem lookupKey_objMerge (old new : List (String × String)) (k : String) :
    lookupKey (objMerge old new) k
      = (lookupKey new k).or (lookupKey old k) := by
  have hmap : (fun p : String × String =>
      match lookupKey new p.1 with
      | some v => (p.1, v)
      | none => p)
      = fun p : String × String =>
        (p.1, match lookupKey new p.1 with
          | some v => v
          | none => p.2) := by
    funext p
    cases hv : lookupKey new p.1 <;> simp [hv]
  rw [objMerge, hmap, lookupKey_append,
    lookupKey_mapValues old
      (fun key v => match lookupKey new key with
        | some w => w
        | none => v) k,
    lookupKey_filterAbsent old new k]
  cases ho : lookupKey old k <;> cases hn : lookupKey new k <;>
    simp [ho, hn, Option.or]

/-- The per-pair replacement of `setKey` rewritten as a key-preserving
value transformation. -/
theorem setKey_map_eq (url : String) (v : CredEntry) :
    (fun p : String × CredEntry => if p.1 = url then (url, v) else p)
      = fun p : String × CredEntry =>
        (p.1, if p.1 = url then v else p.2) := by
  funext p
  by_cases h : p.1 = url
  · simp [h]
  · simp [h]

/-- Lookup at the written key after `setKey`. -/
theorem lookupKey_setKey_self (m : Credentials) (url : String)
    (v : CredEntry) : lookupKey (setKey m url v) url = some v := by
  by_cases hm : (lookupKey m url).isSome
  · rw [setKey, if_pos hm, setKey_map_eq,
      lookupKey_mapValues m (fun key w => if key = url then v else w) url]
    obtain ⟨w, hw⟩ := Option.isSome_iff_exists.mp hm
    rw [hw]
    simp
  · rw [setKey, if_neg hm, lookupKey_append]
    have h0 : lookupKey m url = none := by
      cases h : lookupKey m url with
      | none => rfl
      | some w =>
        rw [h] at hm
        simp at hm
    rw [h0]
    simp [lookupKey, Option.or]

/-- Lookup at any other key is unchanged by `setKey`. -/
theorem lookupKey_setKey_other (m : Credentials) (url u : String)
    (v : CredEntry) (hu : u ≠ url) :
    lookupKey (setKey m url v) u = lookupKey m u := by
  have h1 : url ≠ u := fun h => hu h.symm
  by_cases hm : (lookupKey m url).isSome
  · rw [setKey, if_pos hm, setKey_map_eq,
      lookupKey_mapValues m (fun key w => if key = url then v else w) u]
    cases lookupKey m u with
    | none => rfl
    | some w => simp [hu]
  · rw [setKey, if_neg hm, lookupKey_append]
    have h2 : lookupKey [(url, v)] u = none := by
      simp [lookupKey, h1]
    rw [h2]
    cases lookupKey m u <;> simp [Option.or]

/-- C10: `readJsonFile` never throws — every failure of the directory
check, the read, or `JSON.parse` collapses to `null` (`none`), and on
full success the parsed value is returned; `writeJsonFile` never throws
and returns `true` exactly when the directory check and the
serialize-and-write both succeeded. -/
theorem readWriteJsonFile_total (env : FsEnv) (p : String) (data : JValue) :
    (readJsonFile env p =
      match env.dirOk p with
      | .error _ => none
      | .ok _ =>
        match env.readResult p with
        | .error _ => none
        | .ok s => (env.parse s).toOption)
    ∧ (writeJsonFile env p data = true ↔
        env.dirOk p = .ok () ∧ env.writeResult p data = .ok ()) := by
  constructor
  · rw [readJsonFile, readJsonFileBody]
    cases hd : env.dirOk p with
    | error e => rfl
    | ok u =>
      dsimp only
      cases hr : env.readResult p with
      | error e => rfl
      | ok s =>
        dsimp only
        cases env.parse s <;> rfl
  · rw [writeJsonFile, writeJsonFileBody]
    cases hd : env.dirOk p with
    | error e => simp
    | ok u =>
      cases hw : env.writeResult p data with
      | error e => simp
      | ok w => simp

/-- C7: after a successful `saveCredentials(url, newData)`,
`loadCredentials` yields a map whose entry at `url` carries
`newData.cookies` and the field-wise merge of `newData.formData` over
the previously stored `formData` (old fields survive where `newData`
lacks them), while every other URL's entry is unchanged. -/
theorem saveCredentials_roundTrip (file : Option Credentials) (url : String)
    (nd : NewCredData) (c : String) (hc : nd.cookies = some c) :
    (saveCredentials file true url nd).1 = true
    ∧ ∃ creds, loadCredentials (saveCredentials file true url nd).2 = some creds
        ∧ (∃ entry, lookupKey creds url = some entry
            ∧ entry.cookies = some c
            ∧ ∀ k, lookupKey entry.formData k
                = (lookupKey nd.formData k).or
                  (lookupKey
                    (match lookupKey (file.getD []) url with
                      | some e => e.formData
                      | none => []) k))
        ∧ ∀ u, u ≠ url → lookupKey creds u = lookupKey (file.getD []) u := by
  refine ⟨rfl, ?_⟩
  refine ⟨setKey (file.getD []) url
    (mergeEntry (lookupKey (file.getD []) url) nd), rfl, ?_, ?_⟩
  · refine ⟨mergeEntry (lookupKey (file.getD []) url) nd,
      lookupKey_setKey_self _ _ _, ?_, ?_⟩
    · simp [mergeEntry, hc]
    · intro k
      cases ho : lookupKey (file.getD []) url with
      | none => simp [mergeEntry, ho, lookupKey_objMerge]
      | some e => simp [mergeEntry, ho, lookupKey_objMerge]
  · intro u hu
    exact lookupKey_setKey_other _ _ _ _ hu

/-- Witness for `saveCredentials_roundTrip`: a concrete store holding
an entry for `"a"` with one stale formData field, updated with fresh
cookies and an overriding field. -/
theorem saveCredentials_roundTrip_witness :
    ((saveCredentials
        (some [("a", { cookies := some "old", formData := [("salt", "1")] })])
        true "a" { cookies := some "new", formData := [("salt", "2")] }).1
      = true)
    ∧ (some "new" : Option String) = some "new" := by
  refine ⟨?_, rfl⟩
  exact (saveCredentials_roundTrip
    (some [("a", { cookies := some "old", formData := [("salt", "1")] })])
    "a" { cookies := some "new", formData := [("salt", "2")] } "new" rfl).1

/-- Bound and value of every wait produced by the attempt loop, at any
reachable call site (`attempt + rem = MAX_RETRIES + 1`, `rem ≥ 1`):
at most `rem - 1` waits occur and the `i`-th recorded wait is
`RETRY_DELAY * (attempt + i)`. -/
theorem fetchAttempts_delay_spec (script : Nat → Except FetchErr String) :
    ∀ rem attempt, attempt + rem = MAX_RETRIES + 1 → 1 ≤ rem →
      (fetchAttempts script attempt rem).2.length + 1 ≤ rem
      ∧ ∀ i d, (fetchAttempts script attempt rem).2.get? i = some d →
          d = RETRY_DELAY * (attempt + i) := by
  intro rem
  induction rem with
  | zero => omega
  | succ r ih =>
    intro attempt hsum _
    cases hs : script attempt with
    | ok h =>
      simp [fetchAttempts, hs]
    | error e =>
      by_cases hmax : (attempt == MAX_RETRIES) = true
      · simp [fetchAttempts, hs, hmax]
      · have hmax' : attempt ≠ MAX_RETRIES := by
          simpa using hmax
        have h3 : MAX_RETRIES = 3 := rfl
        have hr1 : 1 ≤ r := by omega
        by_cases hret : isRetryableErr e = true
        · have hsum' : (attempt + 1) + r = MAX_RETRIES + 1 := by omega
          obtain ⟨ihlen, ihget⟩ := ih (attempt + 1) hsum' hr1
          have hstep : fetchAttempts script attempt (r + 1)
              = ((fetchAttempts script (attempt + 1) r).1,
                RETRY_DELAY * attempt
                  :: (fetchAttempts script (attempt + 1) r).2) := by
            simp [fetchAttempts, hs, hmax, hret]
          constructor
          · rw [hstep]
            simp only [List.length_cons]
            omega
          · intro i d hd
            rw [hstep] at hd
            cases i with
            | zero =>
              simp only [List.get?_cons_zero, Option.some.injEq] at hd
              rw [← hd, Nat.add_zero]
            | succ j =>
              simp only [List.get?_cons_succ] at hd
              have hj := ihget j d hd
              rw [hj]
              congr 1
              omega
        · simp [fetchAttempts, hs, hmax, hret]

/-- C3: in `fetchAndSaveHtml`, a failed attempt is retried only on a
network-code or 5xx axios error; at most `MAX_RETRIES = 3` attempts
run (at most 2 waits); the wait before retrying attempt `i + 1` is
`RETRY_DELAY * 2 ^ i` (exponential in the attempt number); a
non-retryable error before the last attempt is rethrown immediately
with no wait; and when the final attempt fails its error is propagated
(wrapped in the "Failed after 3 attempts" error). -/
theorem fetchAndSaveHtml_retry_policy (script : Nat → Except FetchErr String) :
    ((fetchAndSaveHtml script).2.length + 1 ≤ MAX_RETRIES)
    ∧ (∀ i d, (fetchAndSaveHtml script).2.get? i = some d →
        d = RETRY_DELAY * 2 ^ i)
    ∧ (∀ h, script 1 = .ok h → fetchAndSaveHtml script = (.ok h, []))
    ∧ (∀ attempt rem e, script attempt = .error e →
        isRetryableErr e = false → (attempt == MAX_RETRIES) = false →
        fetchAttempts script attempt (rem + 1) = (.immediate e, []))
    ∧ (∀ e1 e2 e3, script 1 = .error e1 → isRetryableErr e1 = true →
        script 2 = .error e2 → isRetryableErr e2 = true →
        script 3 = .error e3 →
        fetchAndSaveHtml script
          = (.failedAfterMax e3, [RETRY_DELAY * 1, RETRY_DELAY * 2])) := by
  obtain ⟨hlen0, hget0⟩ :=
    fetchAttempts_delay_spec script MAX_RETRIES 1 (by omega)
      (by simp [MAX_RETRIES])
  have hlen : (fetchAndSaveHtml script).2.length + 1 ≤ MAX_RETRIES := hlen0
  have hget : ∀ i d, (fetchAndSaveHtml script).2.get? i = some d →
      d = RETRY_DELAY * (1 + i) := hget0
  refine ⟨hlen, ?_, ?_, ?_, ?_⟩
  · intro i d hd
    have hv := hget i d hd
    obtain ⟨hlt, -⟩ := List.get?_eq_some.mp hd
    have h3 : MAX_RETRIES = 3 := rfl
    have hi : i ≤ 1 := by omega
    interval_cases i
    · simpa using hv
    · rw [hv]
      norm_num
  · intro h hs
    simp [fetchAndSaveHtml, MAX_RETRIES, fetchAttempts, hs]
  · intro attempt rem e hs hret hmax
    simp [fetchAttempts, hs, hmax, hret]
  · intro e1 e2 e3 h1 hr1 h2 hr2 h3
    simp [fetchAndSaveHtml, MAX_RETRIES, fetchAttempts, h1, h2, h3, hr1, hr2]

/-- Witness for `fetchAndSaveHtml_retry_policy`: with every attempt
timing out, the run makes exactly 3 attempts, waits 2000 ms then
4000 ms, and propagates the last error. -/
theorem fetchAndSaveHtml_retry_policy_witness :
    fetchAndSaveHtml c3Script
      = (.failedAfterMax c3TimeoutErr, [RETRY_DELAY * 1, RETRY_DELAY * 2]) :=
  (fetchAndSaveHtml_retry_policy c3Script).2.2.2.2 c3TimeoutErr c3TimeoutErr
    c3TimeoutErr rfl rfl rfl rfl rfl

/-- Strings with equal character data are equal. -/
theorem str_ext {a b : String} (h : a.data = b.data) : a = b := by
  cases a
  cases b
  exact congrArg String.mk h

/-- String append is associative (via the underlying character
lists). -/
theorem str_append_assoc (a b c : String) : a ++ b ++ c = a ++ (b ++ c) :=
  str_ext (List.append_assoc a.data b.data c.data)

/-- The empty string is a right identity for append. -/
theorem str_append_empty (s : String) : s ++ "" = s :=
  str_ext (List.append_nil s.data)

/-- The empty string is a left identity for append. -/
theorem str_empty_append (s : String) : "" ++ s = s :=
  str_ext (List.nil_append s.data)

/-- `concatAll` over a snoc: append the last letter. -/
theorem concatAll_snoc (xs : List String) (x : String) :
    concatAll (xs ++ [x]) = concatAll xs ++ x := by
  induction xs with
  | nil => simp [concatAll, str_append_empty, str_empty_append]
  | cons h t ih => simp [concatAll, ih, str_append_assoc]

/-- The Persian alphabet has 33 letters. -/
theorem persianLetters_length : persianLetters.length = 33 := rfl

/-- The 33 letters are pairwise distinct. -/
theorem persianLetters_nodup : persianLetters.Nodup := by decide

/-- Every letter is a single character. -/
theorem persianLetters_single_char :
    ∀ l ∈ persianLetters, l.data.length = 1 := by decide

/-- One extension pass multiplies the combination count by 33. -/
theorem extendComb_length (L : List String) :
    (extendComb L).length = L.length * 33 := by
  induction L with
  | nil => rfl
  | cons h t ih =>
    simp only [extendComb, List.flatMap_cons, List.length_append,
      List.length_map, List.length_cons, persianLetters_length] at ih ⊢
    omega

/-- Unfolding `genAux` one pass at a time. -/
theorem genAux_succ (k : Nat) : genAux (k + 1) = extendComb (genAux k) := by
  rw [genAux, Function.iterate_succ_apply']
  rfl

/-- After `n` passes there are `33 ^ (n + 1)` combinations. -/
theorem genAux_length (n : Nat) : (genAux n).length = 33 ^ (n + 1) := by
  induction n with
  | zero => rfl
  | succ k ih =>
    rw [genAux_succ, extendComb_length, ih]
    ring

/-- Membership characterization: after `n` passes the list holds
exactly the concatenations of `n + 1` letters. -/
theorem mem_genAux (n : Nat) (s : String) :
    s ∈ genAux n ↔ ∃ ls : List String, ls.length = n + 1
      ∧ (∀ x ∈ ls, x ∈ persianLetters) ∧ s = concatAll ls := by
  induction n generalizing s with
  | zero =>
    constructor
    · intro hs
      refine ⟨[s], rfl, ?_, (str_append_empty s).symm⟩
      intro x hx
      have hxs : x = s := by simpa using hx
      rw [hxs]
      exact hs
    · rintro ⟨ls, hlen, hmem, rfl⟩
      cases ls with
      | nil => simp at hlen
      | cons x t =>
        have ht : t = [] := by
          apply List.length_eq_zero.mp
          simpa using hlen
        subst ht
        have : concatAll [x] = x := by
          simp [concatAll, str_append_empty]
        rw [this]
        exact hmem x (by simp)
  | succ k ih =>
    constructor
    · intro hs
      rw [genAux_succ, extendComb] at hs
      obtain ⟨c, hc, hsm⟩ := List.mem_flatMap.mp hs
      obtain ⟨l, hl, rfl⟩ := List.mem_map.mp hsm
      obtain ⟨ls, hlen, hmem, rfl⟩ := (ih c).mp hc
      refine ⟨ls ++ [l], by simp [hlen], ?_, (concatAll_snoc ls l).symm⟩
      intro x hx
      rcases List.mem_append.mp hx with h | h
      · exact hmem x h
      · have hxl : x = l := by simpa using h
        rw [hxl]
        exact hl
    · rintro ⟨ls, hlen, hmem, rfl⟩
      have hne : ls ≠ [] := by
        intro h
        rw [h] at hlen
        simp at hlen
      have hlast := List.dropLast_append_getLast hne
      have hinitlen : ls.dropLast.length = k + 1 := by
        rw [List.length_dropLast ls, hlen]
        omega
      rw [genAux_succ, extendComb]
      apply List.mem_flatMap.mpr
      refine ⟨concatAll ls.dropLast, ?_, ?_⟩
      · apply (ih _).mpr
        refine ⟨ls.dropLast, hinitlen, ?_, rfl⟩
        intro x hx
        exact hmem x (List.mem_of_mem_dropLast hx)
      · apply List.mem_map.mpr
        refine ⟨ls.getLast hne, ?_, ?_⟩
        · exact hmem _ (List.getLast_mem hne)
        · rw [← concatAll_snoc, hlast]

/-- Appending single-character letters is jointly injective. -/
theorem append_letter_inj {c1 c2 l1 l2 : String}
    (h1 : l1.data.length = 1) (h2 : l2.data.length = 1)
    (h : c1 ++ l1 = c2 ++ l2) : c1 = c2 ∧ l1 = l2 := by
  have hd : c1.data ++ l1.data = c2.data ++ l2.data := congrArg String.data h
  have hp := List.append_inj' hd (h1.trans h2.symm)
  exact ⟨str_ext hp.1, str_ext hp.2⟩

/-- After `n` passes the combination list has no duplicates. -/
theorem genAux_nodup (n : Nat) : (genAux n).Nodup := by
  induction n with
  | zero => exact persianLetters_nodup
  | succ k ih =>
    rw [genAux_succ, extendComb]
    apply List.nodup_flatMap.mpr
    constructor
    · intro c hc
      apply List.Nodup.map ?_ persianLetters_nodup
      intro l1 l2 hl
      exact str_ext (List.append_cancel_left (congrArg String.data hl))
    · apply List.Pairwise.imp ?_ ih
      intro a b hab x hxa hxb
      obtain ⟨l1, hl1, rfl⟩ := List.mem_map.mp hxa
      obtain ⟨l2, hl2, heq⟩ := List.mem_map.mp hxb
      obtain ⟨hba, -⟩ := append_letter_inj
        (persianLetters_single_char l2 hl2)
        (persianLetters_single_char l1 hl1) heq
      exact hab hba.symm

/-- C5: `generateCombinationsIterative maxLength` is empty for
`maxLength ≤ 0`, and for `maxLength ≥ 1` it holds `33 ^ maxLength`
pairwise-distinct strings, which are exactly the concatenations of
`maxLength` letters of the 33-letter Persian alphabet (hence no string
of any other length). -/
theorem generateCombinationsIterative_spec (m : Int) :
    (m ≤ 0 → generateCombinationsIterative m = [])
    ∧ (1 ≤ m →
        (generateCombinationsIterative m).length = 33 ^ m.toNat
        ∧ (generateCombinationsIterative m).Nodup
        ∧ ∀ s, s ∈ generateCombinationsIterative m ↔
            ∃ ls : List String, ls.length = m.toNat
              ∧ (∀ x ∈ ls, x ∈ persianLetters) ∧ s = concatAll ls) := by
  constructor
  · intro h
    rw [generateCombinationsIterative, if_pos h]
  · intro h
    have hnot : ¬ m ≤ 0 := by omega
    have hgen : generateCombinationsIterative m = genAux ((m - 1).toNat) := by
      rw [generateCombinationsIterative, if_neg hnot, genAux]
    have htn : (m - 1).toNat + 1 = m.toNat := by omega
    refine ⟨?_, ?_, ?_⟩
    · rw [hgen, genAux_length, htn]
    · rw [hgen]
      exact genAux_nodup _
    · intro s
      rw [hgen, ← htn]
      exact mem_genAux _ s

/-- Witness for `generateCombinationsIterative_spec`: the empty result
at `maxLength = 0` and the count at `maxLength = 1`. -/
theorem generateCombinationsIterative_spec_witness :
    generateCombinationsIterative 0 = []
    ∧ (generateCombinationsIterative 1).length = 33 ^ (1 : Int).toNat := by
  constructor
  · exact (generateCombinationsIterative_spec 0).1 (by omega)
  · exact ((generateCombinationsIterative_spec 1).2 (by omega)).1

/-- A worker's slice normalized: worker `i` takes `c` elements
starting at `i * c` (the `min` with the total length is absorbed by
`take`'s own truncation). -/
theorem workerSlice_eq (l : List String) (N i : Nat) :
    workerSlice l N i
      = (l.drop (i * combinationsPerWorker l.length N)).take
          (combinationsPerWorker l.length N) := by
  rw [workerSlice]
  apply List.take_eq_take.mpr
  rw [List.length_drop]
  have hb : (i + 1) * combinationsPerWorker l.length N
      = i * combinationsPerWorker l.length N
        + combinationsPerWorker l.length N := by
    rw [Nat.succ_mul]
  omega

/-- Consecutive `c`-sized chunks starting at multiples of `c`
concatenate to the `N * c`-prefix. -/
theorem flatMap_chunks {α : Type} (l : List α) (c : Nat) (N : Nat) :
    (List.range N).flatMap (fun i => (l.drop (i * c)).take c)
      = l.take (N * c) := by
  induction N with
  | zero => simp
  | succ k ih =>
    rw [List.range_succ, List.flatMap_append, ih, Nat.succ_mul,
      List.take_add]
    simp

/-- Ceiling division: `N` workers with `⌈T / N⌉` items each cover all
`T` items. -/
theorem ceil_mul_ge (T N : Nat) (hN : 1 ≤ N) :
    T ≤ N * combinationsPerWorker T N := by
  obtain ⟨n, rfl⟩ : ∃ n, N = n + 1 := ⟨N - 1, by omega⟩
  rw [combinationsPerWorker]
  have he : T + (n + 1) - 1 = T + n := by omega
  rw [he]
  have h := Nat.div_add_mod (T + n) (n + 1)
  have hm : (T + n) % (n + 1) < n + 1 := Nat.mod_lt _ (by omega)
  set q := (T + n) / (n + 1)
  set r := (T + n) % (n + 1)
  set p := (n + 1) * q
  omega

/-- C6: for `workers ≥ 1`, `main`'s distribution of the generated
combination list assigns every combination to exactly one worker: the
concatenation of the per-worker slices, in worker order, is the whole
list, and the index windows of distinct workers are disjoint (worker
`i`'s window ends no later than worker `j`'s begins, for `i < j`). -/
theorem main_worker_distribution (maxLength : Int) (N : Nat) (hN : 1 ≤ N) :
    ((List.range N).flatMap
        (fun i => workerSlice (generateCombinationsIterative maxLength) N i)
      = generateCombinationsIterative maxLength)
    ∧ ∀ i j, i < j →
        min ((i + 1) * combinationsPerWorker
              (generateCombinationsIterative maxLength).length N)
            (generateCombinationsIterative maxLength).length
          ≤ j * combinationsPerWorker
              (generateCombinationsIterative maxLength).length N := by
  constructor
  · have hsl : (fun i => workerSlice (generateCombinationsIterative maxLength) N i)
        = fun i => ((generateCombinationsIterative maxLength).drop
            (i * combinationsPerWorker
              (generateCombinationsIterative maxLength).length N)).take
          (combinationsPerWorker
            (generateCombinationsIterative maxLength).length N) := by
      funext i
      exact workerSlice_eq _ N i
    rw [hsl, flatMap_chunks]
    exact List.take_of_length_le (ceil_mul_ge _ N hN)
  · intro i j hij
    have hc : (i + 1) * combinationsPerWorker
          (generateCombinationsIterative maxLength).length N
        ≤ j * combinationsPerWorker
          (generateCombinationsIterative maxLength).length N :=
      Nat.mul_le_mul_right _ hij
    exact le_trans (min_le_left _ _) hc

/-- Witness for `main_worker_distribution`: two workers splitting the
33 single-letter combinations. -/
theorem main_worker_distribution_witness :
    (List.range 2).flatMap
        (fun i => workerSlice (generateCombinationsIterative 1) 2 i)
      = generateCombinationsIterative 1 :=
  (main_worker_distribution 1 2 (by omega)).1

/-- The session guard is transparent for an operation that returns a
non-expired result: the result and state pass through unchanged. -/
theorem withSessionRetry_ok {σ T : Type} (expired : T → Bool)
    (acquire : GuardState σ → GuardState σ)
    (op : GuardState σ → Except (AxiosErr T) T × GuardState σ)
    (s : GuardState σ) (v : T) (s1 : GuardState σ)
    (h : op s = (.ok v, s1)) (hv : expired v = false) :
    withSessionRetry expired acquire op s = (.ok v, s1) := by
  simp [withSessionRetry, h, hv]

/-- `processCompanyData` appends exactly the per-company info-call
events to the trace (and nothing else). -/
theorem processCompanyData_trace (env : SearchEnv) (rows : List RowData)
    (q : String) (isF : Bool) (minRow pp : Nat) (s : SState) :
    (processCompanyData env rows q isF minRow pp s).2.inner.trace
      = s.inner.trace
        ++ (rows.filter (fun r => r.hasLink)).map
            (fun r => Event.infoCall r.companyId) := by
  rw [processCompanyData]
  by_cases h : (rows.filter (fun r => r.hasLink)).isEmpty <;>
    simp [h, updatePaginationStatus]

/-- C9: on a listing page in which no table row carries a company link,
`processCompanyData` returns `{processedCount := 0, totalProcessed := 0}`
and performs no effect at all: the CSV file, the status file — the
whole state — are untouched, and no per-company call is made. -/
theorem processCompanyData_no_company_frame (env : SearchEnv)
    (rows : List RowData) (searchQuery : String) (isFirstBatch : Bool)
    (currentMinRow perPage : Nat) (s : SState)
    (h : ∀ r ∈ rows, r.hasLink = false) :
    processCompanyData env rows searchQuery isFirstBatch currentMinRow
      perPage s = ({ processedCount := 0, totalProcessed := 0 }, s) := by
  have hfilter : rows.filter (fun r => r.hasLink) = [] := by
    apply List.filter_eq_nil_iff.mpr
    intro a ha
    simp [h a ha]
  simp [processCompanyData, hfilter]

/-- Witness for `processCompanyData_no_company_frame`: a single
unlinked row on a fresh state. -/
theorem processCompanyData_no_company_frame_witness :
    processCompanyData c8Env [c9Row] "q" true 1 1000 sInit
      = ({ processedCount := 0, totalProcessed := 0 }, sInit) :=
  processCompanyData_no_company_frame c8Env [c9Row] "q" true 1 1000 sInit
    (by decide)

/-- Character counts add over string append. -/
theorem strCount_append (a b : String) (c : Char) :
    (a ++ b).data.count c = a.data.count c + b.data.count c := by
  show (a.data ++ b.data).count c = _
  simp [List.count_append]

/-- A quoted CSV cell contains at least its two enclosing quotes. -/
theorem csvQuote_quote_count (v : String) :
    2 ≤ (csvQuote v).data.count '"' := by
  rw [csvQuote, strCount_append, strCount_append]
  have h1 : ("\"" : String).data.count '"' = 1 := by decide
  omega

/-- Every rendered data row of `extracted_data.csv` contains quote
characters (its 15 quoted cells). -/
theorem renderExtractedRow_quote_count (item : List (String × String))
    (n : Nat) : 2 ≤ (renderExtractedRow item n).data.count '"' := by
  have hq := csvQuote_quote_count ((lookupKey item "url").getD "")
  simp only [renderExtractedRow, extractedColumns, List.map_cons,
    List.map_nil, joinComma, strCount_append, String.reduceEq, reduceIte]
  omega

/-- The header line of `extracted_data.csv` contains no quote
character. -/
theorem extractedHeader_quote_count :
    extractedHeader.data.count '"' = 0 := by decide

/-- No rendered data row equals the header line. -/
theorem renderExtractedRow_ne_header (item : List (String × String))
    (n : Nat) : renderExtractedRow item n ≠ extractedHeader := by
  intro h
  have h2 := renderExtractedRow_quote_count item n
  rw [h, extractedHeader_quote_count] at h2
  omega

/-- C8 (amended): both CSV writers append; `writeExtractedInfoBatchToCsv`
adds the header only into an empty or missing file — so across any
sequence of its writes the header appears at most once and only as the
first line; `processCompanyData`, by contrast, prepends the header to
its batch exactly when `isFirstBatch` is true, with no check of the
file, so a later call with `isFirstBatch = true` duplicates the
header mid-file. -/
theorem csvWriters_header_behavior :
    (∀ file data flag, headerOnce extractedHeader (file.getD []) →
      (∃ rows, writeExtractedInfoBatchToCsv file data flag
          = (file.getD [])
            ++ (if flag && (file.getD []).isEmpty then [extractedHeader]
                else [])
            ++ rows
          ∧ ∀ r ∈ rows, r ≠ extractedHeader)
      ∧ headerOnce extractedHeader
          (writeExtractedInfoBatchToCsv file data flag))
    ∧ (∀ env rows searchQuery isF minRow pp s,
        rows.filter (fun r => r.hasLink) ≠ [] →
        (processCompanyData env rows searchQuery isF minRow
            pp s).2.inner.companyCsv
          = some ((s.inner.companyCsv.getD [])
              ++ (if isF then [companyHeader] else [])
              ++ ((rows.filter (fun r => r.hasLink)).map
                  (companyOfRow env)).map companyRowLine)) := by
  constructor
  · intro file data flag hinv
    have hshape : writeExtractedInfoBatchToCsv file data flag
        = (file.getD [])
          ++ (if flag && (file.getD []).isEmpty then [extractedHeader]
              else [])
          ++ data.enum.map (fun p => renderExtractedRow p.2
              ((if (file.getD []).isEmpty then 1
                else getCurrentRowCount file) + p.1)) := by
      cases file <;> rfl
    have hrows : ∀ r ∈ data.enum.map (fun p => renderExtractedRow p.2
        ((if (file.getD []).isEmpty then 1
          else getCurrentRowCount file) + p.1)),
        r ≠ extractedHeader := by
      intro r hr
      obtain ⟨p, -, rfl⟩ := List.mem_map.mp hr
      exact renderExtractedRow_ne_header _ _
    refine ⟨⟨_, hshape, hrows⟩, ?_⟩
    set R := data.enum.map (fun p => renderExtractedRow p.2
        ((if (file.getD []).isEmpty then 1
          else getCurrentRowCount file) + p.1)) with hR
    have hnotin : extractedHeader ∉ R := by
      intro hmem
      exact hrows _ hmem rfl
    have h0 : R.count extractedHeader = 0 := List.count_eq_zero.mpr hnotin
    rw [hshape]
    cases hcond : (flag && (file.getD []).isEmpty) with
    | true =>
      have hempty : (file.getD []) = [] := by
        rw [Bool.and_eq_true] at hcond
        exact List.isEmpty_iff.mp hcond.2
      rw [hempty]
      constructor
      · simp only [if_true, List.nil_append, List.singleton_append,
          List.count_cons_self]
        omega
      · intro i hi
        cases i with
        | zero => rfl
        | succ j =>
          exfalso
          simp only [if_true, List.nil_append, List.singleton_append,
            List.get?_cons_succ] at hi
          exact hnotin (List.get?_mem hi)
    | false =>
      simp only [Bool.false_eq_true, if_false, List.append_nil]
      constructor
      · rw [List.count_append]
        have h1 := hinv.1
        omega
      · intro i hi
        by_cases hlt : i < (file.getD []).length
        · rw [List.get?_append hlt] at hi
          exact hinv.2 i hi
        · exfalso
          rw [List.get?_append_right (by omega)] at hi
          exact hnotin (List.get?_mem hi)
  · intro env rows searchQuery isF minRow pp s hne
    have hnempty : (rows.filter (fun r => r.hasLink)).isEmpty = false := by
      cases hfe : rows.filter (fun r => r.hasLink) with
      | nil => exact absurd hfe hne
      | cons a t => rfl
    rw [processCompanyData]
    simp [hnempty, updatePaginationStatus]

/-- Witness for `csvWriters_header_behavior`: the extracted-info writer
on a fresh file preserves header-once. -/
theorem csvWriters_header_behavior_witness :
    headerOnce extractedHeader (writeExtractedInfoBatchToCsv none [] true) :=
  ((csvWriters_header_behavior).1 none [] true
    ⟨by decide, fun i h => by cases i <;> simp [List.get?] at h⟩).2

/-- Recording an event does not touch the status file. -/
theorem getPaginationStatus_emitCall (ev : Event) (s : SState) :
    getPaginationStatus (emitCall ev s) = getPaginationStatus s := rfl

/-- In a clean environment, `executeSearch` reaches its pagination
phase after exactly the accept and refine calls (no redirect, no
renewal), with the loop's starting triple taken from the persisted
checkpoint when one exists and `(1, 0, true)` otherwise. -/
theorem executeSearch_cleanEnv_unfold (batches : Nat → List RowData)
    (details : String → Option CompanyDetails) (fuel : Nat) (q : String)
    (s : SState) :
    executeSearch (cleanEnv batches details) fuel q s
      = executeSearchLoopPhase (cleanEnv batches details) fuel q
          (match getPaginationStatus s with
           | some p => (p.currentMinRow, p.totalProcessed, p.isFirstBatch)
           | none => (1, 0, true))
          (emitCall .callAjax2 (emitCall .callAccept s)) := by
  have hacc := withSessionRetry_ok respExpired acquireCookiesM
    (flowAcceptM (cleanEnv batches details)) s
    { errorField := none, redirectURL := none,
      rows := batches s.inner.callIdx }
    (emitCall .callAccept s) rfl rfl
  have haj := withSessionRetry_ok respExpired acquireCookiesM
    (flowAjax2M (cleanEnv batches details)) (emitCall .callAccept s)
    { errorField := none, redirectURL := none,
      rows := batches (emitCall Event.callAccept s).inner.callIdx }
    (emitCall .callAjax2 (emitCall .callAccept s)) rfl rfl
  rw [executeSearch, hacc]
  dsimp only
  rw [haj]
  dsimp only
  rw [getPaginationStatus_emitCall, getPaginationStatus_emitCall]

/-- `portalCalls` distributes over trace append. -/
theorem portalCalls_append (a b : List Event) :
    portalCalls (a ++ b) = portalCalls a ++ portalCalls b :=
  List.filter_append a b

/-- Per-company info calls are not portal calls. -/
theorem portalCalls_infoCalls (l : List RowData) :
    portalCalls (l.map (fun r => Event.infoCall r.companyId)) = [] := by
  apply List.filter_eq_nil_iff.mpr
  intro a ha
  obtain ⟨r, -, rfl⟩ := List.mem_map.mp ha
  simp [isPortalCall]

/-- A lone company-page call is its own portal subtrace. -/
theorem portalCalls_single_company (m : Nat) :
    portalCalls [Event.callCompany m] = [Event.callCompany m] := rfl

/-- A delay is not a portal call. -/
theorem portalCalls_delay (ms : Nat) :
    portalCalls [Event.delayMs ms] = [] := rfl

/-- In a clean environment the pagination loop emits exactly one
company-page call per iteration, at `minRow`, `minRow + perPage`,
`minRow + 2·perPage`, …: the portal subtrace after the loop extends
the incoming one by `k` consecutive page calls for some `k ≤ fuel`
(`k ≥ 1` whenever the loop could run at all). -/
theorem companyLoop_cleanEnv_portalCalls (batches : Nat → List RowData)
    (details : String → Option CompanyDetails) (q : String) :
    ∀ fuel minRow tc isF s,
      ∃ k, k ≤ fuel ∧ (1 ≤ fuel → 1 ≤ k)
        ∧ portalCalls ((companyLoop (cleanEnv batches details) q fuel
              minRow tc isF s).2.inner.trace)
          = portalCalls s.inner.trace
            ++ (List.range k).map
                (fun i => Event.callCompany (minRow + searchPerPage * i)) := by
  intro fuel
  induction fuel with
  | zero =>
    intro minRow tc isF s
    exact ⟨0, Nat.le_refl 0, by omega, by simp [companyLoop]⟩
  | succ f ih =>
    intro minRow tc isF s
    have hcall := withSessionRetry_ok respExpired acquireCookiesM
      (flowAjaxCompanyM (cleanEnv batches details) minRow) s
      { errorField := none, redirectURL := none,
        rows := batches s.inner.callIdx }
      (emitCall (.callCompany minRow) s) rfl rfl
    have hunfold : companyLoop (cleanEnv batches details) q (f + 1)
        minRow tc isF s
        = (if (processCompanyData (cleanEnv batches details)
              (batches s.inner.callIdx) q isF minRow searchPerPage
              (emitCall (.callCompany minRow) s)).1.processedCount
            < searchPerPage then
            ((.done (processCompanyData (cleanEnv batches details)
                (batches s.inner.callIdx) q isF minRow searchPerPage
                (emitCall (.callCompany minRow) s)).1.totalProcessed),
              (processCompanyData (cleanEnv batches details)
                (batches s.inner.callIdx) q isF minRow searchPerPage
                (emitCall (.callCompany minRow) s)).2)
          else
            companyLoop (cleanEnv batches details) q f
              (minRow + searchPerPage)
              (processCompanyData (cleanEnv batches details)
                (batches s.inner.callIdx) q isF minRow searchPerPage
                (emitCall (.callCompany minRow) s)).1.totalProcessed false
              { (processCompanyData (cleanEnv batches details)
                  (batches s.inner.callIdx) q isF minRow searchPerPage
                  (emitCall (.callCompany minRow) s)).2 with
                inner := { (processCompanyData (cleanEnv batches details)
                    (batches s.inner.callIdx) q isF minRow searchPerPage
                    (emitCall (.callCompany minRow) s)).2.inner with
                  trace := (processCompanyData (cleanEnv batches details)
                      (batches s.inner.callIdx) q isF minRow searchPerPage
                      (emitCall (.callCompany minRow) s)).2.inner.trace
                    ++ [Event.delayMs 1000] } }) := by
      simp only [companyLoop]
      rw [hcall]
    have hemit : (emitCall (Event.callCompany minRow) s).inner.trace
        = s.inner.trace ++ [Event.callCompany minRow] := rfl
    have hptrace : portalCalls ((processCompanyData (cleanEnv batches details)
          (batches s.inner.callIdx) q isF minRow searchPerPage
          (emitCall (.callCompany minRow) s)).2.inner.trace)
        = portalCalls s.inner.trace ++ [Event.callCompany minRow] := by
      rw [processCompanyData_trace, hemit, portalCalls_append,
        portalCalls_append, portalCalls_infoCalls,
        portalCalls_single_company, List.append_nil]
    rw [hunfold]
    by_cases hshort : (processCompanyData (cleanEnv batches details)
        (batches s.inner.callIdx) q isF minRow searchPerPage
        (emitCall (.callCompany minRow) s)).1.processedCount < searchPerPage
    · refine ⟨1, by omega, by omega, ?_⟩
      rw [if_pos hshort]
      dsimp only
      rw [hptrace]
      simp [List.range_succ]
    · rw [if_neg hshort]
      obtain ⟨k, hk, hk1, htr⟩ := ih (minRow + searchPerPage)
        (processCompanyData (cleanEnv batches details)
          (batches s.inner.callIdx) q isF minRow searchPerPage
          (emitCall (.callCompany minRow) s)).1.totalProcessed false
        { (processCompanyData (cleanEnv batches details)
            (batches s.inner.callIdx) q isF minRow searchPerPage
            (emitCall (.callCompany minRow) s)).2 with
          inner := { (processCompanyData (cleanEnv batches details)
              (batches s.inner.callIdx) q isF minRow searchPerPage
              (emitCall (.callCompany minRow) s)).2.inner with
            trace := (processCompanyData (cleanEnv batches details)
                (batches s.inner.callIdx) q isF minRow searchPerPage
                (emitCall (.callCompany minRow) s)).2.inner.trace
              ++ [Event.delayMs 1000] } }
      refine ⟨k + 1, by omega, by omega, ?_⟩
      rw [htr]
      have hdel : portalCalls ((processCompanyData (cleanEnv batches details)
            (batches s.inner.callIdx) q isF minRow searchPerPage
            (emitCall (.callCompany minRow) s)).2.inner.trace
          ++ [Event.delayMs 1000])
          = portalCalls s.inner.trace ++ [Event.callCompany minRow] := by
        rw [portalCalls_append, hptrace, portalCalls_delay, List.append_nil]
      rw [hdel, List.append_assoc]
      congr 1
      rw [List.range_succ_eq_map, List.map_cons, List.map_map]
      have hfn : ((fun i => Event.callCompany (minRow + searchPerPage * i))
            ∘ fun i => i + 1)
          = fun i => Event.callCompany
              (minRow + searchPerPage + searchPerPage * i) := by
        funext i
        show Event.callCompany (minRow + searchPerPage * (i + 1)) = _
        congr 1
        ring
      rw [hfn]
      simp

/-- The `search_results.json` write after the loop does not touch the
trace. -/
theorem executeSearchLoopPhase_trace (env : SearchEnv) (fuel : Nat)
    (q : String) (init : Nat × Int × Bool) (s : SState) :
    (executeSearchLoopPhase env fuel q init s).2.inner.trace
      = (companyLoop env q fuel init.1 init.2.1 init.2.2 s).2.inner.trace := by
  rcases hr : companyLoop env q fuel init.1 init.2.1 init.2.2 s with ⟨r, s4⟩
  rw [executeSearchLoopPhase, hr]
  cases r <;> rfl

/-- C2 (amended): the pagination checkpoint.  (1) After every
company-listing batch that contains at least one company row,
`processCompanyData` persists `{currentMinRow, totalProcessed,
isFirstBatch}` (plus `perPage`) into the query's `status.json`;
a batch with no company rows is processed without persisting.
(2) When a checkpoint is present, `executeSearch` enters its
pagination loop with `(minRow, totalCompanies, isFirstBatch)` taken
from the persisted values; (3) without a checkpoint it starts from
`(1, 0, true)`. -/
theorem executeSearch_checkpoint_resume :
    (∀ env rows searchQuery isF minRow pp s res s2,
        processCompanyData env rows searchQuery isF minRow pp s = (res, s2) →
        rows.filter (fun r => r.hasLink) ≠ [] →
        getPaginationStatus s2
          = some ⟨minRow, pp, res.totalProcessed, isF⟩)
    ∧ (∀ batches details fuel q s p,
        getPaginationStatus s = some p →
        executeSearch (cleanEnv batches details) fuel q s
          = executeSearchLoopPhase (cleanEnv batches details) fuel q
              (p.currentMinRow, p.totalProcessed, p.isFirstBatch)
              (emitCall .callAjax2 (emitCall .callAccept s)))
    ∧ (∀ batches details fuel q s,
        getPaginationStatus s = none →
        executeSearch (cleanEnv batches details) fuel q s
          = executeSearchLoopPhase (cleanEnv batches details) fuel q
              (1, 0, true)
              (emitCall .callAjax2 (emitCall .callAccept s))) := by
  refine ⟨?_, ?_, ?_⟩
  · intro env rows searchQuery isF minRow pp s res s2 heq hne
    have hnempty : (rows.filter (fun r => r.hasLink)).isEmpty = false := by
      cases hfe : rows.filter (fun r => r.hasLink) with
      | nil => exact absurd hfe hne
      | cons a t => rfl
    have h2 : s2 = (processCompanyData env rows searchQuery isF
        minRow pp s).2 := by
      rw [heq]
    have h1 : res = (processCompanyData env rows searchQuery isF
        minRow pp s).1 := by
      rw [heq]
    subst h2
    subst h1
    simp [processCompanyData, hnempty, updatePaginationStatus,
      getPaginationStatus]
  · intro batches details fuel q s p hp
    rw [executeSearch_cleanEnv_unfold, hp]
  · intro batches details fuel q s hp
    rw [executeSearch_cleanEnv_unfold, hp]

/-- Witness for `executeSearch_checkpoint_resume`: a run on a state
holding the checkpoint `c2Ckpt = {currentMinRow := 2001,
totalProcessed := 42, isFirstBatch := false}` enters the loop at
exactly that triple. -/
theorem executeSearch_checkpoint_resume_witness :
    executeSearch (cleanEnv (fun _ => []) (fun _ => none)) 3 "q" c2CkptState
      = executeSearchLoopPhase (cleanEnv (fun _ => []) (fun _ => none)) 3 "q"
          (2001, 42, false)
          (emitCall .callAjax2 (emitCall .callAccept c2CkptState)) :=
  executeSearch_checkpoint_resume.2.1 (fun _ => []) (fun _ => none) 3 "q"
    c2CkptState c2Ckpt rfl

/-- C2 counterexample: a run whose single company-listing batch
contains no company rows processes that batch (the trace shows the
page call) yet persists nothing — `status.json` is never written —
refuting "after each company-listing batch is processed, the
pagination state is persisted". -/
theorem executeSearch_no_persist_counterexample :
    executeSearch (cleanEnv (fun _ => []) (fun _ => none)) 5 "q" sInit
      = (.done 0, { credFile := none, inner := c2FinalInner }) := by
  rfl

/-- C4 (amended): in a clean environment `executeSearch` drives the
portal calls in the fixed order accept → ajax refine → paginated
company-listing calls at rows 1, 1001, 2001, … — each step wrapped in
the session guard `withSessionRetry` (single renewal retry on a
session-ended shape), not in an exponential-backoff retry. -/
theorem executeSearch_call_order (batches : Nat → List RowData)
    (details : String → Option CompanyDetails) (fuel : Nat) (q : String)
    (s : SState) (hck : getPaginationStatus s = none)
    (htr : s.inner.trace = []) :
    ∃ k, k ≤ fuel ∧ (1 ≤ fuel → 1 ≤ k)
      ∧ portalCalls ((executeSearch (cleanEnv batches details) fuel
            q s).2.inner.trace)
        = [Event.callAccept, Event.callAjax2]
          ++ (List.range k).map
              (fun i => Event.callCompany (1 + searchPerPage * i)) := by
  rw [executeSearch_cleanEnv_unfold, hck]
  obtain ⟨k, hk, hk1, htrace⟩ := companyLoop_cleanEnv_portalCalls batches
    details q fuel 1 0 true (emitCall .callAjax2 (emitCall .callAccept s))
  refine ⟨k, hk, hk1, ?_⟩
  rw [executeSearchLoopPhase_trace]
  dsimp only
  rw [htrace]
  have hstart : portalCalls
      (emitCall .callAjax2 (emitCall .callAccept s)).inner.trace
      = [Event.callAccept, Event.callAjax2] := by
    show portalCalls ((s.inner.trace ++ [Event.callAccept])
      ++ [Event.callAjax2]) = _
    rw [htr]
    rfl
  rw [hstart]

/-- Witness for `executeSearch_call_order`: a fresh two-fuel run makes
the calls accept, refine, then one company page at row 1. -/
theorem executeSearch_call_order_witness :
    ∃ k, k ≤ 2 ∧ (1 ≤ 2 → 1 ≤ k)
      ∧ portalCalls ((executeSearch (cleanEnv (fun _ => []) (fun _ => none))
            2 "q" sInit).2.inner.trace)
        = [Event.callAccept, Event.callAjax2]
          ++ (List.range k).map
              (fun i => Event.callCompany (1 + searchPerPage * i)) :=
  executeSearch_call_order (fun _ => []) (fun _ => none) 2 "q" sInit rfl rfl

/-- C4 counterexample: when the first step (`flowAccept`) throws a
plain network axios error (no response body), `executeSearch`
propagates it after a single call — no wait is inserted and no second
attempt is made — refuting "each of these steps is wrapped with an
exponential-backoff retry". -/
theorem executeSearch_no_backoff_counterexample :
    executeSearch c4ErrEnv 5 "q" sInit
      = (.err c4NetErr, { credFile := none, inner := c4FinalInner }) := by
  rfl

/-- C8 counterexample: two `processCompanyData` batches both flagged
`isFirstBatch = true` (as happens when a run re-executes a query whose
persisted checkpoint still says `isFirstBatch: true`) produce a file
in which the header line occurs twice — the second time mid-file —
refuting "the header line is written at most once per file, appearing
only as the first line". -/
theorem processCompanyData_duplicate_header_counterexample :
    ((processCompanyData c8Env [c8Row] "q" true 1
        1000 c8s1).2.inner.companyCsv.getD [])
      = [companyHeader, companyRowLine (companyOfRow c8Env c8Row),
         companyHeader, companyRowLine (companyOfRow c8Env c8Row)]
    ∧ ((processCompanyData c8Env [c8Row] "q" true 1
        1000 c8s1).2.inner.companyCsv.getD []).count companyHeader = 2 := by
  constructor
  · rfl
  · rfl

/-- C1 (amended): complete characterization of the session guard.  A
result without the session-ended shape is returned unchanged with no
renewal; a session-ended *result* triggers clear + re-acquire
(`renewSession`) and one re-run whose normal result is returned without
further checks; a session-ended axios *error* (from the first run, or
from the re-run triggered by a session-ended result) triggers renewal
and one further run.  In particular, when the re-run after a
session-ended result throws a session-ended axios error the guard
renews and runs the operation a third time — the one divergence from
the claim's "re-runs the operation exactly once". -/
theorem withSessionRetry_renewal_behavior {σ : Type}
    (acquire : GuardState σ → GuardState σ)
    (op : GuardState σ → Except (AxiosErr JValue) JValue × GuardState σ)
    (s : GuardState σ) :
    (∀ v s1, op s = (.ok v, s1) → isSessionExpired v = false →
      withSessionRetryJson acquire op s = (.ok v, s1))
    ∧ (∀ v s1 w s2, op s = (.ok v, s1) → isSessionExpired v = true →
      op (renewSession acquire s1) = (.ok w, s2) →
      withSessionRetryJson acquire op s = (.ok w, s2))
    ∧ (∀ v s1 e s2, op s = (.ok v, s1) → isSessionExpired v = true →
      op (renewSession acquire s1) = (.error e, s2) →
      axiosSessionExpired isSessionExpired e = true →
      withSessionRetryJson acquire op s = op (renewSession acquire s2))
    ∧ (∀ v s1 e s2, op s = (.ok v, s1) → isSessionExpired v = true →
      op (renewSession acquire s1) = (.error e, s2) →
      axiosSessionExpired isSessionExpired e = false →
      withSessionRetryJson acquire op s = (.error e, s2))
    ∧ (∀ e s1, op s = (.error e, s1) →
      axiosSessionExpired isSessionExpired e = true →
      withSessionRetryJson acquire op s = op (renewSession acquire s1))
    ∧ (∀ e s1, op s = (.error e, s1) →
      axiosSessionExpired isSessionExpired e = false →
      withSessionRetryJson acquire op s = (.error e, s1)) := by
  refine ⟨?_, ?_, ?_, ?_, ?_, ?_⟩
  · intro v s1 h hv
    simp [withSessionRetryJson, withSessionRetry, h, hv]
  · intro v s1 w s2 h hv h2
    simp [withSessionRetryJson, withSessionRetry, h, hv, h2]
  · intro v s1 e s2 h hv h2 he
    simp [withSessionRetryJson, withSessionRetry, h, hv, h2, he]
  · intro v s1 e s2 h hv h2 he
    simp [withSessionRetryJson, withSessionRetry, h, hv, h2, he]
  · intro e s1 h he
    simp [withSessionRetryJson, withSessionRetry, h, he]
  · intro e s1 h he
    simp [withSessionRetryJson, withSessionRetry, h, he]

/-- Witness for `withSessionRetry_renewal_behavior`: a concrete run in
which the operation succeeds with a non-session-ended body and is
returned unchanged after a single invocation, credentials file
untouched. -/
theorem withSessionRetry_renewal_behavior_witness :
    withSessionRetryJson (fun s => s) c1CleanOp c1Start
      = (.ok (.str "fine"), { credFile := none, inner := 1 }) :=
  (withSessionRetry_renewal_behavior (fun s => s) c1CleanOp c1Start).1
    (.str "fine") { credFile := none, inner := 1 } rfl rfl

/-- C1 counterexample: run 1 returns a session-ended body, the guard
renews and re-runs; the re-run throws an axios error carrying a
session-ended body, and — contrary to "returning that second result
without further session checks or retries" — the guard renews again
and runs the operation a third time (final invocation count 3, not
2). -/
theorem withSessionRetry_triple_run_counterexample :
    withSessionRetryJson (fun s => s) c1Op c1Start
      = (.ok (.str "done"), { credFile := some [], inner := 3 })
    ∧ (withSessionRetryJson (fun s => s) c1Op c1Start).2.inner ≠ 2 := by
  constructor
  · rfl
  · intro h
    simp [withSessionRetryJson, withSessionRetry, c1Op, c1Script, c1Start,
      renewSession, axiosSessionExpired, isSessionExpired, sessionEndedBody,
      lookupKey] at h

end WebScrapers
